import Mathlib

/-!
Verification of `etf_bot.py` (saiiko-ctrl/etf_anchor_bot) against its
natural-language specification.

Shallow embedding conventions:
* Python floats are modelled as rationals (`ℚ`); the program only adds,
  subtracts and compares prices, so `ℚ` captures the arithmetic exactly.
* Python `None` becomes `Option`.
* The `positions` dict becomes an association list `Store`; a position
  record carries the four fields every record created by the command
  surface has (`add` always installs all four defaults).
* The `alert_fired` set of `(date, ticker, level)` triples becomes a
  `List Key` with membership testing.
* Strings formatted with numeric `:.2f` interpolation are modelled by
  structured records carrying the interpolated data plus the fixed text.
-/

namespace EtfBot

/-- Pip threshold configuration: the module-level globals
`PIP50, PIP75, PIP100` of `etf_bot.py` (mutable via `/setpips`). -/
structure Pips where
  pip50 : ℚ
  pip75 : ℚ
  pip100 : ℚ
deriving DecidableEq

/-- The defaults `PIP50, PIP75, PIP100 = 0.50, 0.75, 1.00`. -/
def defaultPips : Pips := ⟨1/2, 3/4, 1⟩

/-- Result of `income_floor_for_price`: Python returns `None`, a float,
or the string `"No-buys > $36"`. -/
inductive FloorRes where
  | nofloor : FloorRes
  | amount : ℚ → FloorRes
  | toodear : String → FloorRes
deriving DecidableEq

/-- `income_floor_for_price(price)` from `etf_bot.py` lines 83–92. -/
def income_floor_for_price : Option ℚ → FloorRes
  | none => .nofloor
  | some price =>
    if price < 5 then .nofloor
    else if price ≤ 11 then .amount (1/2)
    else if price ≤ 17 then .amount (3/4)
    else if price ≤ 22 then .amount 1
    else if price ≤ 27 then .amount (3/2)
    else if price ≤ 32 then .amount (5/2)
    else if price ≤ 36 then .amount 3
    else .toodear "No-buys > $36"

/-- `calc_triggers(adj, price)` from `etf_bot.py` lines 94–100.
Returns the optional level string and the explanatory text (the `:.2f`
threshold interpolation in the f-strings is elided; the fixed text is
kept). -/
def calc_triggers (pips : Pips) (adj : ℚ) (price : Option ℚ) :
    Option String × String :=
  let pip50 := adj - pips.pip50
  let pip75 := adj - pips.pip75
  let pip100 := adj - pips.pip100
  match price with
  | none => (none, "No price")
  | some p =>
    if p ≤ pip100 then (some "100", "Buy trigger hit at 100 pip")
    else if p ≤ pip75 then (some "75", "Buy trigger hit at 75 pip")
    else if p ≤ pip50 then (some "50", "Buy trigger hit at 50 pip")
    else (none, "No buy levels triggered.")

/-- A dedup key: `(YYYY-MM-DD date, ticker, level)` as recorded in the
`alert_fired` set (`etf_bot.py` line 36). -/
abbrev Key := String × String × String

/-- The dedup gate inlined in `alerts_loop` lines 151–153:
`if key not in alert_fired: alert_fired.add(key); ...`.
Returns (should fire?, updated set). -/
def shouldFire (fired : List Key) (k : Key) : Bool × List Key :=
  if k ∈ fired then (false, fired) else (true, k :: fired)

/-- A position record: the dict `{"avg_cost": ..., "cum_div": ...,
"shares": ..., "active": ...}` installed by `/add` and mutated by the
other commands. -/
structure Pos where
  avg_cost : Option ℚ
  cum_div : ℚ
  shares : Int
  active : Bool
deriving DecidableEq

/-- The defaults installed by `add`:
`{"avg_cost": None, "cum_div": 0.0, "shares": 0, "active": True}`. -/
def defaultPos : Pos := ⟨none, 0, 0, true⟩

/-- The `positions` dict, as an association list preserving insertion
order (Python dicts preserve insertion order). -/
abbrev Store := List (String × Pos)

/-- Dict lookup `positions.get(t)` / `positions[t]`. -/
def lookupStore (t : String) : Store → Option Pos
  | [] => none
  | (k, v) :: rest => if k = t then some v else lookupStore t rest

/-- Dict update `positions[t][field] = ...`: rewrite the value at an
existing key in place. -/
def updateStore (t : String) (f : Pos → Pos) : Store → Store
  | [] => []
  | (k, v) :: rest =>
    if k = t then (k, f v) :: rest else (k, v) :: updateStore t f rest

/-- Dict delete `del positions[t]`. -/
def eraseStore (t : String) : Store → Store
  | [] => []
  | (k, v) :: rest => if k = t then rest else (k, v) :: eraseStore t rest

/-- Python's `ticker.upper()` applied by every ticker command; tickers
are ASCII symbols, for which `upper` maps each character through the
a–z → A–Z translation that `Char.toUpper` implements. -/
def pyUpper (s : String) : String := ⟨s.data.map Char.toUpper⟩

/-- Python's `int(float(value))`: truncation of the numeric value
toward zero (`q.num.tdiv q.den` since `den > 0`). -/
def truncRat (q : ℚ) : Int := Int.tdiv q.num q.den

/-- `/add TICKER` (lines 197–201): uppercase, `setdefault` with the
default record, i.e. insert only when absent. -/
def addCmd (store : Store) (ticker : String) : Store :=
  let t := pyUpper ticker
  match lookupStore t store with
  | some _ => store
  | none => store ++ [(t, defaultPos)]

/-- `/remove TICKER` (lines 204–209). -/
def removeCmd (store : Store) (ticker : String) : Store :=
  let t := pyUpper ticker
  if (lookupStore t store).isSome then eraseStore t store else store

/-- `/setavg TICKER v` (lines 212–219); `arg = none` models a
`float(value)` parse failure (`ValueError` → store untouched). -/
def setavgCmd (store : Store) (ticker : String) (arg : Option ℚ) : Store :=
  let t := pyUpper ticker
  match lookupStore t store, arg with
  | some _, some v => updateStore t (fun p => { p with avg_cost := some v }) store
  | _, _ => store

/-- `/setdiv TICKER v` (lines 222–229). -/
def setdivCmd (store : Store) (ticker : String) (arg : Option ℚ) : Store :=
  let t := pyUpper ticker
  match lookupStore t store, arg with
  | some _, some v => updateStore t (fun p => { p with cum_div := v }) store
  | _, _ => store

/-- `/adddiv TICKER v` (lines 232–241). -/
def adddivCmd (store : Store) (ticker : String) (arg : Option ℚ) : Store :=
  let t := pyUpper ticker
  match lookupStore t store, arg with
  | some _, some v => updateStore t (fun p => { p with cum_div := p.cum_div + v }) store
  | _, _ => store

/-- `/resetdiv TICKER` (lines 244–248). -/
def resetdivCmd (store : Store) (ticker : String) : Store :=
  let t := pyUpper ticker
  match lookupStore t store with
  | some _ => updateStore t (fun p => { p with cum_div := 0 }) store
  | none => store

/-- `/setshares TICKER v` (lines 251–258): stores `int(float(value))`,
with no sign check. -/
def setsharesCmd (store : Store) (ticker : String) (arg : Option ℚ) : Store :=
  let t := pyUpper ticker
  match lookupStore t store, arg with
  | some _, some v => updateStore t (fun p => { p with shares := truncRat v }) store
  | _, _ => store

/-- `/active TICKER on|off` (lines 261–268). -/
def activeCmd (store : Store) (ticker : String) (flag : String) : Store :=
  let t := pyUpper ticker
  match lookupStore t store with
  | none => store
  | some _ =>
    if flag ∈ ["on", "true", "yes", "1"] then
      updateStore t (fun p => { p with active := true }) store
    else if flag ∈ ["off", "false", "no", "0"] then
      updateStore t (fun p => { p with active := false }) store
    else store

/-- `/setinterval seconds` (lines 280–288): parse failure (`arg = none`)
→ usage message, `s < 60` → rejection, otherwise the interval becomes
`s`. Returns (new interval, reply). -/
def setinterval (cur : Int) (arg : Option Int) : Int × String :=
  match arg with
  | none => (cur, "Usage: /setinterval 300 (seconds)")
  | some s =>
    if s < 60 then (cur, "Minimum interval is 60 seconds.")
    else (s, "Alert interval set.")

/-- The store-touching command surface (commands without a ticker
argument — `status`, `tickers`, `help`, `setpips`, `setinterval` —
never write the store and are represented by `nop`). -/
inductive Cmd where
  | add : String → Cmd
  | remove : String → Cmd
  | setavg : String → Option ℚ → Cmd
  | setdiv : String → Option ℚ → Cmd
  | adddiv : String → Option ℚ → Cmd
  | resetdiv : String → Cmd
  | setshares : String → Option ℚ → Cmd
  | active : String → String → Cmd
  | nop : Cmd

/-- One command's effect on the position store. -/
def runCmd (store : Store) : Cmd → Store
  | .add t => addCmd store t
  | .remove t => removeCmd store t
  | .setavg t v => setavgCmd store t v
  | .setdiv t v => setdivCmd store t v
  | .adddiv t v => adddivCmd store t v
  | .resetdiv t => resetdivCmd store t
  | .setshares t v => setsharesCmd store t v
  | .active t f => activeCmd store t f
  | .nop => store

/-- A command sequence's effect on the position store. -/
def runCmds (store : Store) : List Cmd → Store
  | [] => store
  | c :: rest => runCmds (runCmd store c) rest

/-- The batch price fetch result: `fetch_prices_batch` returns a dict
ticker → price-or-`None`; tickers absent from this list stand for
`None` entries. -/
abbrev PriceMap := List (String × ℚ)

/-- `prices.get(t)`. -/
def lookupPrice (t : String) (prices : PriceMap) : Option ℚ :=
  match prices.find? (fun p => p.1 = t) with
  | some p => some p.2
  | none => none

/-- The list `actives = [t for t,i in positions.items() if
i.get("active", True)]` (line 137): the batch submitted to
`fetch_prices_batch` — all active tickers, with no shares filter. -/
def batchTickers (store : Store) : List String :=
  (store.filter (fun p => p.2.active)).map (fun p => p.1)

/-- Observable events of one polling cycle, in program order. -/
inductive Ev where
  | record : Key → Ev
  | send : String → Ev
  | diag : String → Ev
deriving DecidableEq

/-- The body of the `for t in actives` loop (lines 140–155) for one
ticker: skip on zero shares (when `skip` is set), on a missing
`avg_cost` or price; otherwise evaluate `calc_triggers` on
`adj = avg - cum` and pass any level through the dedup gate; on a
fresh key, record it and — only when a channel is present — send the
alert. Returns the updated `alert_fired` list and the emitted events. -/
def processTicker (pips : Pips) (skip chPresent : Bool) (today : String)
    (prices : PriceMap) (store : Store) (fired : List Key) (t : String) :
    List Key × List Ev :=
  match lookupStore t store with
  | none => (fired, [])
  | some info =>
    if skip && info.shares == 0 then (fired, [])
    else
      match info.avg_cost, lookupPrice t prices with
      | some avg, some price =>
        let adj := avg - info.cum_div
        match (calc_triggers pips adj (some price)).1 with
        | some level =>
          let key : Key := (today, t, level)
          let gate := shouldFire fired key
          if gate.1 then
            (gate.2, .record key :: if chPresent then [.send t] else [])
          else (gate.2, [])
        | none => (fired, [])
      | _, _ => (fired, [])

/-- One successful pass of the alerts loop body (lines 137–155):
compute the active batch, then run the per-ticker body over it. -/
def cycleEval (pips : Pips) (skip chPresent : Bool) (today : String)
    (store : Store) (prices : PriceMap) (fired : List Key) :
    List Key × List Ev :=
  (batchTickers store).foldl
    (fun acc t =>
      let r := processTicker pips skip chPresent today prices store acc.1 t
      (r.1, acc.2 ++ r.2))
    (fired, [])

/-- What one cycle's evaluation did: either it completed with a fetch
result, or some step raised an exception `e`. -/
inductive CycleOutcome where
  | ok : PriceMap → CycleOutcome
  | exn : String → CycleOutcome

/-- One iteration of the `while not bot.is_closed()` loop (lines
135–158): the `try` body on success, the `except` handler — a
diagnostic to the channel when one is present — on failure. -/
def loopStep (pips : Pips) (skip chPresent : Bool) (today : String)
    (store : Store) (fired : List Key) : CycleOutcome → List Key × List Ev
  | .ok prices => cycleEval pips skip chPresent today store prices fired
  | .exn e =>
    (fired, if chPresent then [.diag ("Alert loop error: " ++ e)] else [])

/-- The alerts loop over a sequence of cycle outcomes, returning the
final `alert_fired` list and the trace of each cycle's events. -/
def runCycles (pips : Pips) (skip chPresent : Bool) (today : String)
    (store : Store) (fired : List Key) :
    List CycleOutcome → List Key × List (List Ev)
  | [] => (fired, [])
  | o :: rest =>
    let r := loopStep pips skip chPresent today store fired o
    let rr := runCycles pips skip chPresent today store r.1 rest
    (rr.1, r.2 :: rr.2)

/-- The data interpolated into one `/status` report line by
`line_for_report` (line 112); the `:.2f` text rendering is elided. -/
structure Line where
  ticker : String
  adj : ℚ
  price : ℚ
  trig_text : String
  floor : FloorRes
  shares : Int
deriving DecidableEq

/-- `line_for_report(t, info, price)` (lines 102–112): `None` for an
inactive, zero-share (under the skip policy), unpriced or
cost-less position; otherwise the report line's data. -/
def line_for_report (pips : Pips) (skip : Bool) (t : String) (info : Pos)
    (price : Option ℚ) : Option Line :=
  if !info.active then none
  else if skip && info.shares == 0 then none
  else
    match info.avg_cost, price with
    | some avg, some p =>
      let adj := avg - info.cum_div
      let r := calc_triggers pips adj (some p)
      some ⟨t, adj, p, r.2, income_floor_for_price (some p), info.shares⟩
    | _, _ => none

/-- `build_status()` (lines 114–121): one line per sorted ticker that
`line_for_report` keeps. It reads only `positions` and the fetched
prices — not `alert_fired`. -/
def build_status (pips : Pips) (skip : Bool) (store : Store)
    (prices : PriceMap) : List Line :=
  (((store.map (fun p => p.1)).mergeSort (fun a b => a ≤ b)).filterMap
    (fun t =>
      match lookupStore t store with
      | some info => line_for_report pips skip t info (lookupPrice t prices)
      | none => none))

/-- Interleaved system events: polling cycles and `/status` queries. -/
inductive SysEvent where
  | cycle : CycleOutcome → SysEvent
  | statusQuery : PriceMap → SysEvent

/-- Whether an event is a polling cycle. -/
def isCycle : SysEvent → Bool
  | .cycle _ => true
  | .statusQuery _ => false

/-- One system step: a cycle runs the loop body over `alert_fired`;
a `/status` query runs `build_status`, which takes no `alert_fired`
input and hands the set back untouched. -/
def sysStep (pips : Pips) (skip chPresent : Bool) (today : String)
    (store : Store) (fired : List Key) :
    SysEvent → List Key × List Ev × List Line
  | .cycle o =>
    let r := loopStep pips skip chPresent today store fired o
    (r.1, r.2, [])
  | .statusQuery prices =>
    (fired, [], build_status pips skip store prices)

/-- Run a sequence of interleaved cycles and status queries, returning
the final `alert_fired` list. -/
def runSys (pips : Pips) (skip chPresent : Bool) (today : String)
    (store : Store) (fired : List Key) : List SysEvent → List Key
  | [] => fired
  | e :: rest =>
    runSys pips skip chPresent today store
      (sysStep pips skip chPresent today store fired e).1 rest

/-- Modelled from the spec's words for comparison (claim C5): the batch
the spec claims is fetched — "all active, share-holding tickers", i.e.
active AND nonzero shares. -/
def claimedBatchSpec (store : Store) : List String :=
  (store.filter (fun p => p.2.active && !(p.2.shares == 0))).map (fun p => p.1)

/-- Every position's share count is non-negative. -/
def sharesNonneg (store : Store) : Prop := ∀ p ∈ store, 0 ≤ p.2.shares

/-- Every key of the store is uppercase (fixed by `upper()`). -/
def keysUpper (store : Store) : Prop := ∀ p ∈ store, pyUpper p.1 = p.1

end EtfBot

namespace EtfBot

/-- C1: the Trigger Evaluator checks levels in order 100, 75, 50 with
`≤` (equality triggers); an absent price yields no level with the
"No price" reason. -/
theorem calc_triggers_spec (pips : Pips) (a p : ℚ) :
    calc_triggers pips a none = (none, "No price") ∧
    (calc_triggers pips a (some p)).1 =
      (if p ≤ a - pips.pip100 then some "100"
       else if p ≤ a - pips.pip75 then some "75"
       else if p ≤ a - pips.pip50 then some "50"
       else none) := by
  refine ⟨rfl, ?_⟩
  simp only [calc_triggers]
  split
  · rfl
  · split
    · rfl
    · split <;> rfl

/-- C2: the dedup gate fires exactly on keys not yet recorded: a fresh
key fires and is recorded, a second check of the identical key never
fires, and a key differing from every recorded key always fires. -/
theorem shouldFire_spec (fired : List Key) (k k' : Key) :
    (k ∉ fired → shouldFire fired k = (true, k :: fired)) ∧
    (k ∈ fired → shouldFire fired k = (false, fired)) ∧
    (shouldFire (shouldFire fired k).2 k).1 = false ∧
    (k' ∉ fired → (shouldFire fired k').1 = true) := by
  refine ⟨fun h => by simp [shouldFire, h], fun h => by simp [shouldFire, h],
    ?_, fun h => by simp [shouldFire, h]⟩
  by_cases h : k ∈ fired <;> simp [shouldFire, h]

/-- Closed instance of `shouldFire_spec`: a concrete key fires on the
first check, is recorded, and does not fire on the second. -/
theorem shouldFire_spec_witness :
    shouldFire [] ("2024-01-01", "ABC", "100") =
      (true, [("2024-01-01", "ABC", "100")]) ∧
    (shouldFire [("2024-01-01", "ABC", "100")]
      ("2024-01-01", "ABC", "100")).1 = false ∧
    (shouldFire [("2024-01-01", "ABC", "100")]
      ("2024-01-01", "ABC", "75")).1 = true := by
  have h := shouldFire_spec [] ("2024-01-01", "ABC", "100")
    ("2024-01-01", "ABC", "100")
  have h2 := shouldFire_spec [("2024-01-01", "ABC", "100")]
    ("2024-01-01", "ABC", "100") ("2024-01-01", "ABC", "75")
  refine ⟨h.1 (by simp), ?_, h2.2.2.2 (by simp)⟩
  have h3 := h2.2.1 (by simp)
  simp [h3]

/-- C3 counterexample: the claim says a price of exactly 5.00 maps to
no income floor, but the code tests `price < 5`, so 5.00 falls into the
`≤ 11` band and maps to 0.50. -/
theorem income_floor_at_five :
    income_floor_for_price (some 5) = .amount (1/2) ∧
    FloorRes.amount (1/2) ≠ FloorRes.nofloor := by
  exact ⟨by norm_num [income_floor_for_price], by simp⟩

/-- C3 amended: the income-floor bands are price < 5 → none,
≤ 11 → 0.50, ≤ 17 → 0.75, ≤ 22 → 1.00, ≤ 27 → 1.50, ≤ 32 → 2.50,
≤ 36 → 3.00, > 36 → the "too expensive" sentinel; hence 5.00 → 0.50
(not none), 11.00 → 0.50, 11.01 → 0.75, 36.00 → 3.00 and 36.01 →
sentinel; an absent price gives none. -/
theorem income_floor_bands (p : ℚ) :
    income_floor_for_price none = .nofloor ∧
    income_floor_for_price (some 5) = .amount (1/2) ∧
    income_floor_for_price (some 11) = .amount (1/2) ∧
    income_floor_for_price (some (1101/100)) = .amount (3/4) ∧
    income_floor_for_price (some 36) = .amount 3 ∧
    income_floor_for_price (some (3601/100)) = .toodear "No-buys > $36" ∧
    income_floor_for_price (some p) =
      (if p < 5 then .nofloor
       else if p ≤ 11 then .amount (1/2)
       else if p ≤ 17 then .amount (3/4)
       else if p ≤ 22 then .amount 1
       else if p ≤ 27 then .amount (3/2)
       else if p ≤ 32 then .amount (5/2)
       else if p ≤ 36 then .amount 3
       else .toodear "No-buys > $36") := by
  refine ⟨rfl, ?_, ?_, ?_, ?_, ?_, rfl⟩ <;>
    norm_num [income_floor_for_price]

theorem toNat_ofNat_of_valid {n : Nat} (h : n.isValidChar) :
    (Char.ofNat n).toNat = n := by
  rw [Char.ofNat, dif_pos h]
  rfl

theorem toUpper_eq (c : Char) :
    c.toUpper =
      if c.toNat ≥ 97 ∧ c.toNat ≤ 122 then Char.ofNat (c.toNat - 32) else c :=
  rfl

theorem toUpper_idem (c : Char) : c.toUpper.toUpper = c.toUpper := by
  by_cases h : c.toNat ≥ 97 ∧ c.toNat ≤ 122
  · rw [toUpper_eq c, if_pos h, toUpper_eq, if_neg]
    have hv : (c.toNat - 32).isValidChar := Or.inl (by omega)
    rw [toNat_ofNat_of_valid hv]
    omega
  · rw [toUpper_eq c, if_neg h, toUpper_eq, if_neg h]

theorem pyUpper_idem (s : String) : pyUpper (pyUpper s) = pyUpper s := by
  have h : Char.toUpper ∘ Char.toUpper = Char.toUpper := funext toUpper_idem
  simp [pyUpper, List.map_map, h]

theorem runCycles_length (pips : Pips) (skip chPresent : Bool)
    (today : String) (store : Store) (outcomes : List CycleOutcome) :
    ∀ fired,
      (runCycles pips skip chPresent today store fired outcomes).2.length =
        outcomes.length := by
  induction outcomes with
  | nil => intro fired; rfl
  | cons o rest ih => intro fired; simp [runCycles, ih]

/-- C4: the loop body is wrapped in a per-cycle exception handler: a
cycle that raises leaves the dedup state untouched, reports the error
as a diagnostic to the channel, and every remaining cycle still runs —
the trace always has exactly one entry per cycle, whatever mix of
successes and failures the cycles are. -/
theorem alerts_loop_resilient (pips : Pips) (skip chPresent : Bool)
    (today : String) (store : Store) (fired : List Key) (e : String)
    (outcomes rest : List CycleOutcome) :
    (runCycles pips skip chPresent today store fired outcomes).2.length =
      outcomes.length ∧
    runCycles pips skip true today store fired (.exn e :: rest) =
      ((runCycles pips skip true today store fired rest).1,
       [.diag ("Alert loop error: " ++ e)] ::
         (runCycles pips skip true today store fired rest).2) := by
  exact ⟨runCycles_length pips skip chPresent today store outcomes fired, rfl⟩

/-- C5 counterexample: with one active position holding zero shares,
the batch the code submits to the Price Source (line 137: all active
tickers) contains that ticker, while the claimed batch (active AND
share-holding) does not. -/
theorem batch_counterexample :
    batchTickers [("ABC", ⟨some 10, 0, 0, true⟩)] = ["ABC"] ∧
    claimedBatchSpec [("ABC", ⟨some 10, 0, 0, true⟩)] = [] ∧
    batchTickers [("ABC", ⟨some 10, 0, 0, true⟩)] ≠
      claimedBatchSpec [("ABC", ⟨some 10, 0, 0, true⟩)] := by
  refine ⟨rfl, rfl, by simp [batchTickers, claimedBatchSpec]⟩

/-- C5 amended: the batch submitted to the Price Source each cycle is
exactly the active tickers — the zero-share filter is NOT applied to
the fetch; instead, a zero-share active ticker is skipped later,
during per-ticker evaluation (when the skip-if-no-shares policy is
enabled), so it contributes no alert and no dedup entry. -/
theorem batchTickers_amended (store : Store) (t : String) (pips : Pips)
    (chPresent : Bool) (today : String) (prices : PriceMap)
    (fired : List Key) (info : Pos)
    (h1 : lookupStore t store = some info) (h2 : info.shares = 0) :
    (∀ s : String,
      s ∈ batchTickers store ↔ ∃ i : Pos, (s, i) ∈ store ∧ i.active = true) ∧
    processTicker pips true chPresent today prices store fired t =
      (fired, []) := by
  constructor
  · intro s
    simp only [batchTickers, List.mem_map, List.mem_filter]
    constructor
    · rintro ⟨⟨k, i⟩, ⟨hmem, hact⟩, rfl⟩
      exact ⟨i, hmem, by simpa using hact⟩
    · rintro ⟨i, hmem, hact⟩
      exact ⟨(s, i), ⟨hmem, by simpa using hact⟩, rfl⟩
  · simp [processTicker, h1, h2]

/-- Closed instance of `batchTickers_amended`: a zero-share active
ticker is in the batch but its evaluation is a no-op. -/
theorem batchTickers_amended_witness :
    ("ABC" ∈ batchTickers [("ABC", ⟨some 10, 0, 0, true⟩)] ↔
      ∃ i : Pos, ("ABC", i) ∈ [("ABC", (⟨some 10, 0, 0, true⟩ : Pos))] ∧
        i.active = true) ∧
    processTicker defaultPips true true "2024-01-01" [("ABC", 9)]
      [("ABC", ⟨some 10, 0, 0, true⟩)] [] "ABC" = ([], []) := by
  have h := batchTickers_amended [("ABC", ⟨some 10, 0, 0, true⟩)] "ABC"
    defaultPips true "2024-01-01" [("ABC", 9)] [] ⟨some 10, 0, 0, true⟩
    (by rfl) (by rfl)
  exact ⟨h.1 "ABC", h.2⟩

/-- C9: when a fresh trigger fires, the key enters `alert_fired` first
(the `.record` event heads the trace, ahead of any `.send`), and the
key is recorded even with no notification channel (`chPresent = false`
still yields the extended fired list and no send). -/
theorem record_before_send (pips : Pips) (skip chPresent : Bool)
    (today : String) (prices : PriceMap) (store : Store)
    (fired : List Key) (t : String) (info : Pos) (avg price : ℚ)
    (level : String)
    (h1 : lookupStore t store = some info)
    (h2 : (skip && info.shares == 0) = false)
    (h3 : info.avg_cost = some avg)
    (h4 : lookupPrice t prices = some price)
    (h5 : (calc_triggers pips (avg - info.cum_div) (some price)).1 =
      some level)
    (h6 : (today, t, level) ∉ fired) :
    processTicker pips skip chPresent today prices store fired t =
      ((today, t, level) :: fired,
       .record (today, t, level) ::
         if chPresent then [.send t] else []) ∧
    (processTicker pips skip false today prices store fired t).1 =
      (today, t, level) :: fired := by
  have hgate : shouldFire fired (today, t, level) =
      (true, (today, t, level) :: fired) := by
    simp [shouldFire, h6]
  constructor
  · simp [processTicker, h1, h2, h3, h4, h5, hgate]
  · simp [processTicker, h1, h2, h3, h4, h5, hgate]

/-- Closed instance of `record_before_send`: with no channel the key
is still recorded and nothing is sent. -/
theorem record_before_send_witness :
    processTicker ⟨1, 2, 3⟩ true false "2024-01-01" [("ABC", 7)]
      [("ABC", ⟨some 10, 0, 5, true⟩)] [] "ABC" =
      ([("2024-01-01", "ABC", "100")],
       [.record ("2024-01-01", "ABC", "100")]) := by
  have h := record_before_send ⟨1, 2, 3⟩ true false "2024-01-01"
    [("ABC", 7)] [("ABC", ⟨some 10, 0, 5, true⟩)] [] "ABC"
    ⟨some 10, 0, 5, true⟩ 10 7 "100" (by rfl) (by rfl) (by rfl) (by rfl)
    (by norm_num [calc_triggers]) (by simp)
  simpa using h.1

theorem runSys_filter (pips : Pips) (skip chPresent : Bool)
    (today : String) (store : Store) (evts : List SysEvent) :
    ∀ fired,
      runSys pips skip chPresent today store fired evts =
        runSys pips skip chPresent today store fired
          (evts.filter (fun e => isCycle e)) := by
  induction evts with
  | nil => intro fired; rfl
  | cons e rest ih =>
    intro fired
    cases e with
    | cycle o => simp [runSys, sysStep, List.filter, isCycle, ih]
    | statusQuery prices => simp [runSys, sysStep, List.filter, isCycle, ih]

/-- C6: `/status` is a pure read of the positions and fetched prices:
over any interleaving of polling cycles and status queries the final
dedup set is what the cycles alone produce (status queries can be
erased), and each report line reproduces the polling computation —
`adj = avg - cum_div`, trigger text from `calc_triggers` on that `adj`,
income floor from the raw price. -/
theorem status_frame (pips : Pips) (skip chPresent : Bool)
    (today : String) (store : Store) (fired : List Key)
    (evts : List SysEvent) (t : String) (info : Pos) (avg p : ℚ)
    (h1 : info.active = true)
    (h2 : (skip && info.shares == 0) = false)
    (h3 : info.avg_cost = some avg) :
    runSys pips skip chPresent today store fired evts =
      runSys pips skip chPresent today store fired
        (evts.filter (fun e => isCycle e)) ∧
    line_for_report pips skip t info (some p) =
      some ⟨t, avg - info.cum_div, p,
        (calc_triggers pips (avg - info.cum_div) (some p)).2,
        income_floor_for_price (some p), info.shares⟩ := by
  refine ⟨runSys_filter pips skip chPresent today store evts fired, ?_⟩
  simp [line_for_report, h1, h2, h3]

/-- Closed instance of `status_frame`: a status query interleaved
before a cycle leaves the dedup result unchanged, and a concrete
report line carries the trigger text of `calc_triggers`. -/
theorem status_frame_witness :
    runSys ⟨1, 2, 3⟩ true true "2024-01-01" [("ABC", ⟨some 10, 2, 5, true⟩)]
      [] [.statusQuery [], .cycle (.exn "boom")] =
      runSys ⟨1, 2, 3⟩ true true "2024-01-01"
        [("ABC", ⟨some 10, 2, 5, true⟩)] []
        ([.statusQuery [], .cycle (.exn "boom")].filter
          (fun e => isCycle e)) ∧
    line_for_report ⟨1, 2, 3⟩ true "ABC" ⟨some 10, 2, 5, true⟩ (some 7) =
      some ⟨"ABC", 8, 7, "Buy trigger hit at 50 pip",
        .amount (1/2), 5⟩ := by
  have h := status_frame ⟨1, 2, 3⟩ true true "2024-01-01"
    [("ABC", ⟨some 10, 2, 5, true⟩)] []
    [.statusQuery [], .cycle (.exn "boom")] "ABC"
    ⟨some 10, 2, 5, true⟩ 10 7 (by rfl) (by rfl) (by rfl)
  refine ⟨h.1, ?_⟩
  rw [h.2]
  norm_num [calc_triggers, income_floor_for_price]

/-- C7: `/setinterval` leaves the interval unchanged and replies with
the usage text on a parse failure, rejects any `s < 60` with the
minimum message (interval unchanged), and sets the interval to `s`
when `s ≥ 60`. -/
theorem setinterval_spec (cur s : Int) :
    setinterval cur none = (cur, "Usage: /setinterval 300 (seconds)") ∧
    (setinterval cur (some s)).1 = (if s < 60 then cur else s) ∧
    (s < 60 → setinterval cur (some s) =
      (cur, "Minimum interval is 60 seconds.")) ∧
    (60 ≤ s → setinterval cur (some s) = (s, "Alert interval set.")) := by
  refine ⟨rfl, ?_, fun h => by simp [setinterval, h], fun h => ?_⟩
  · simp only [setinterval]
    split <;> rfl
  · have : ¬s < 60 := not_lt.mpr h
    simp [setinterval, this]

/-- Closed instance of `setinterval_spec`: 59 is rejected, 120 is
accepted. -/
theorem setinterval_spec_witness :
    setinterval 300 (some 59) = (300, "Minimum interval is 60 seconds.") ∧
    setinterval 300 (some 120) = (120, "Alert interval set.") :=
  ⟨(setinterval_spec 300 59).2.2.1 (by decide),
   (setinterval_spec 300 120).2.2.2 (by decide)⟩

theorem mem_updateStore (t : String) (f : Pos → Pos) :
    ∀ store : Store, ∀ p ∈ updateStore t f store,
      p ∈ store ∨ ∃ q ∈ store, p = (q.1, f q.2) := by
  intro store
  induction store with
  | nil => intro p hp; simp [updateStore] at hp
  | cons hd tl ih =>
    obtain ⟨k, v⟩ := hd
    intro p hp
    by_cases hk : k = t
    · simp only [updateStore, if_pos hk] at hp
      rcases List.mem_cons.mp hp with h | h
      · exact Or.inr ⟨(k, v), by simp, by simp [h]⟩
      · exact Or.inl (List.mem_cons_of_mem _ h)
    · simp only [updateStore, if_neg hk] at hp
      rcases List.mem_cons.mp hp with h | h
      · exact Or.inl (by simp [h])
      · rcases ih p h with h1 | ⟨q, hq, hpq⟩
        · exact Or.inl (List.mem_cons_of_mem _ h1)
        · exact Or.inr ⟨q, List.mem_cons_of_mem _ hq, hpq⟩

theorem mem_eraseStore (t : String) :
    ∀ store : Store, ∀ p ∈ eraseStore t store, p ∈ store := by
  intro store
  induction store with
  | nil => intro p hp; simp [eraseStore] at hp
  | cons hd tl ih =>
    obtain ⟨k, v⟩ := hd
    intro p hp
    by_cases hk : k = t
    · simp only [eraseStore, if_pos hk] at hp
      exact List.mem_cons_of_mem _ hp
    · simp only [eraseStore, if_neg hk] at hp
      rcases List.mem_cons.mp hp with h | h
      · exact by simp [h]
      · exact List.mem_cons_of_mem _ (ih p h)

theorem truncRat_nonneg {q : ℚ} (h : 0 ≤ q) : 0 ≤ truncRat q :=
  Int.tdiv_nonneg (Rat.num_nonneg.mpr h) (Int.natCast_nonneg _)

theorem sharesNonneg_updateStore (t : String) (f : Pos → Pos)
    (store : Store) (hf : ∀ x : Pos, 0 ≤ x.shares → 0 ≤ (f x).shares)
    (h : sharesNonneg store) : sharesNonneg (updateStore t f store) := by
  intro p hp
  rcases mem_updateStore t f store p hp with h1 | ⟨q, hq, rfl⟩
  · exact h p h1
  · exact hf q.2 (h q hq)

theorem sharesNonneg_runCmd (store : Store) (c : Cmd)
    (h : sharesNonneg store)
    (hc : ∀ t v, c = Cmd.setshares t (some v) → 0 ≤ v) :
    sharesNonneg (runCmd store c) := by
  cases c with
  | add t =>
    simp only [runCmd, addCmd]
    cases lookupStore (pyUpper t) store with
    | some _ => exact h
    | none =>
      intro p hp
      rcases List.mem_append.mp hp with h1 | h1
      · exact h p h1
      · simp at h1
        simp [h1, defaultPos]
  | remove t =>
    simp only [runCmd, removeCmd]
    split
    · exact fun p hp => h p (mem_eraseStore _ store p hp)
    · exact h
  | setavg t v =>
    simp only [runCmd, setavgCmd]
    split
    · exact sharesNonneg_updateStore _ _ _ (fun x hx => hx) h
    · exact h
  | setdiv t v =>
    simp only [runCmd, setdivCmd]
    split
    · exact sharesNonneg_updateStore _ _ _ (fun x hx => hx) h
    · exact h
  | adddiv t v =>
    simp only [runCmd, adddivCmd]
    split
    · exact sharesNonneg_updateStore _ _ _ (fun x hx => hx) h
    · exact h
  | resetdiv t =>
    simp only [runCmd, resetdivCmd]
    split
    · exact sharesNonneg_updateStore _ _ _ (fun x hx => hx) h
    · exact h
  | setshares t v =>
    simp only [runCmd, setsharesCmd]
    split
    · rename_i v' heq
      refine sharesNonneg_updateStore _ _ _ (fun x _ => ?_) h
      exact truncRat_nonneg (hc t v' rfl)
    · exact h
  | active t fl =>
    simp only [runCmd, activeCmd]
    split
    · exact h
    · split
      · exact sharesNonneg_updateStore _ _ _ (fun x hx => hx) h
      · split
        · exact sharesNonneg_updateStore _ _ _ (fun x hx => hx) h
        · exact h
  | nop => exact h

theorem sharesNonneg_runCmds (cmds : List Cmd) :
    ∀ store : Store, sharesNonneg store →
      (∀ t v, Cmd.setshares t (some v) ∈ cmds → 0 ≤ v) →
      sharesNonneg (runCmds store cmds) := by
  induction cmds with
  | nil => intro store h _; exact h
  | cons c rest ih =>
    intro store h hc
    refine ih (runCmd store c) ?_ ?_
    · exact sharesNonneg_runCmd store c h
        (fun t v hv => hc t v (by simp [hv]))
    · exact fun t v hv => hc t v (List.mem_cons_of_mem _ hv)

/-- C8 counterexample: from the empty store, `/add ABC` followed by
`/setshares ABC -3` yields a reachable state whose shares value is the
negative integer −3 — the code truncates `int(float(value))` without a
sign check. -/
theorem setshares_negative :
    lookupStore "ABC"
      (runCmds [] [.add "ABC", .setshares "ABC" (some (-3))]) =
      some ⟨none, 0, -3, true⟩ ∧ (-3 : Int) < 0 := by
  exact ⟨by decide, by decide⟩

/-- C8 amended: a shares value is always the integer truncation of the
given numeric argument (so never fractional), and for every command
sequence whose set-shares arguments are all non-negative every
reachable shares value stays non-negative; a negative argument,
however, is accepted and stored (see the counterexample). -/
theorem setshares_invariant (store : Store) (cmds : List Cmd) (q : ℚ)
    (hq : 0 ≤ q) (hstore : sharesNonneg store)
    (hcmds : ∀ t v, Cmd.setshares t (some v) ∈ cmds → 0 ≤ v) :
    0 ≤ truncRat q ∧ sharesNonneg (runCmds store cmds) :=
  ⟨truncRat_nonneg hq, sharesNonneg_runCmds cmds store hstore hcmds⟩

/-- Closed instance of `setshares_invariant`: adding a ticker and
setting 7 shares keeps every share count non-negative. -/
theorem setshares_invariant_witness :
    0 ≤ truncRat 7 ∧
    sharesNonneg (runCmds [] [.add "ABC", .setshares "ABC" (some 7)]) := by
  have h := setshares_invariant [] [.add "ABC", .setshares "ABC" (some 7)]
    7 (by norm_num) (by intro p hp; simp at hp)
    (by
      intro t v hv
      simp only [List.mem_cons, List.not_mem_nil, or_false] at hv
      rcases hv with hv | hv
      · exact absurd hv (by simp)
      · rw [Cmd.setshares.injEq, Option.some.injEq] at hv
        rw [hv.2]
        norm_num)
  exact h

theorem keysUpper_updateStore (t : String) (f : Pos → Pos)
    (store : Store) (h : keysUpper store) :
    keysUpper (updateStore t f store) := by
  intro p hp
  rcases mem_updateStore t f store p hp with h1 | ⟨q, hq, rfl⟩
  · exact h p h1
  · exact h q hq

theorem keysUpper_runCmd (store : Store) (c : Cmd) (h : keysUpper store) :
    keysUpper (runCmd store c) := by
  cases c with
  | add t =>
    simp only [runCmd, addCmd]
    cases lookupStore (pyUpper t) store with
    | some _ => exact h
    | none =>
      intro p hp
      rcases List.mem_append.mp hp with h1 | h1
      · exact h p h1
      · simp at h1
        simp [h1, pyUpper_idem]
  | remove t =>
    simp only [runCmd, removeCmd]
    split
    · exact fun p hp => h p (mem_eraseStore _ store p hp)
    · exact h
  | setavg t v =>
    simp only [runCmd, setavgCmd]
    split
    · exact keysUpper_updateStore _ _ _ h
    · exact h
  | setdiv t v =>
    simp only [runCmd, setdivCmd]
    split
    · exact keysUpper_updateStore _ _ _ h
    · exact h
  | adddiv t v =>
    simp only [runCmd, adddivCmd]
    split
    · exact keysUpper_updateStore _ _ _ h
    · exact h
  | resetdiv t =>
    simp only [runCmd, resetdivCmd]
    split
    · exact keysUpper_updateStore _ _ _ h
    · exact h
  | setshares t v =>
    simp only [runCmd, setsharesCmd]
    split
    · exact keysUpper_updateStore _ _ _ h
    · exact h
  | active t fl =>
    simp only [runCmd, activeCmd]
    split
    · exact h
    · split
      · exact keysUpper_updateStore _ _ _ h
      · split
        · exact keysUpper_updateStore _ _ _ h
        · exact h
  | nop => exact h

theorem keysUpper_runCmds (cmds : List Cmd) :
    ∀ store : Store, keysUpper store → keysUpper (runCmds store cmds) := by
  induction cmds with
  | nil => intro store h; exact h
  | cons c rest ih => intro store h; exact ih _ (keysUpper_runCmd store c h)

/-- C10: every ticker command uppercases its argument before touching
the store, so starting from a store whose keys are uppercase every
command sequence keeps all keys uppercase, and each ticker command run
on any spelling coincides with the same command on the uppercase
spelling. -/
theorem ticker_case_insensitive (store : Store) (cmds : List Cmd)
    (t : String) (v : Option ℚ) (fl : String) (h : keysUpper store) :
    keysUpper (runCmds store cmds) ∧
    runCmd store (.add t) = runCmd store (.add (pyUpper t)) ∧
    runCmd store (.remove t) = runCmd store (.remove (pyUpper t)) ∧
    runCmd store (.setavg t v) = runCmd store (.setavg (pyUpper t) v) ∧
    runCmd store (.setdiv t v) = runCmd store (.setdiv (pyUpper t) v) ∧
    runCmd store (.adddiv t v) = runCmd store (.adddiv (pyUpper t) v) ∧
    runCmd store (.resetdiv t) = runCmd store (.resetdiv (pyUpper t)) ∧
    runCmd store (.setshares t v) =
      runCmd store (.setshares (pyUpper t) v) ∧
    runCmd store (.active t fl) = runCmd store (.active (pyUpper t) fl) := by
  refine ⟨keysUpper_runCmds cmds store h, ?_, ?_, ?_, ?_, ?_, ?_, ?_, ?_⟩
  · simp [runCmd, addCmd, pyUpper_idem]
  · simp [runCmd, removeCmd, pyUpper_idem]
  · simp [runCmd, setavgCmd, pyUpper_idem]
  · simp [runCmd, setdivCmd, pyUpper_idem]
  · simp [runCmd, adddivCmd, pyUpper_idem]
  · simp [runCmd, resetdivCmd, pyUpper_idem]
  · simp [runCmd, setsharesCmd, pyUpper_idem]
  · simp [runCmd, activeCmd, pyUpper_idem]

/-- Closed instance of `ticker_case_insensitive`: from the empty store,
adding lowercase "abc" produces an uppercase key and has the same
effect as adding "ABC". -/
theorem ticker_case_insensitive_witness :
    keysUpper (runCmds [] [.add "abc"]) ∧
    runCmd [] (.add "abc") = runCmd [] (.add (pyUpper "abc")) := by
  have h := ticker_case_insensitive [] [.add "abc"] "abc" none "on"
    (by intro p hp; simp at hp)
  exact ⟨h.1, h.2.1⟩

end EtfBot
